import Mathlib

/-!
Verification of the `new.py` template utility.

The program copies a named template (file or directory) from a fixed
template store into the current working directory.  This file gives a
shallow embedding of the program: the template store is a list of
direct children (name, is-directory flag), the current working
directory is a pair of lists of top-level names (files, directories),
interactive input is a list of answer strings, and printed text is a
list of output strings.  Every Python function of the source has a
Lean counterpart with the same name.
-/

namespace NewPy

/-- ASCII whitespace stripped by Python str.strip (space, tab, newline,
carriage return, vertical tab, form feed). -/
def isSpaceChar (c : Char) : Bool :=
  c = ' ' || c = '\t' || c = '\n' || c = '\r' || c = '\x0b' || c = '\x0c'

/-- str.strip on the character list: drop whitespace from both ends. -/
def stripL (l : List Char) : List Char :=
  ((l.dropWhile isSpaceChar).reverse.dropWhile isSpaceChar).reverse

/-- Python str.strip (ASCII fragment). -/
def pyStrip (s : String) : String := ⟨stripL s.data⟩

/-- Python str.lower (ASCII fragment, as used for the answers y/Y/n/N and
for the case-insensitive sort key). -/
def pyLower (s : String) : String := ⟨s.data.map Char.toLower⟩

/-- The remainder of the list after its first dot, if any.  Applied to a
reversed name this finds the part before the LAST dot of the name. -/
def afterFirstDot : List Char → Option (List Char)
  | [] => none
  | c :: cs => if c = '.' then some cs else afterFirstDot cs

/-- Root part of os.path.splitext for a bare filename (no path
separators, which os.listdir children never contain): split at the last
dot, except that a name whose every character before that dot is itself
a dot (leading dots, e.g. ".bashrc") is not split. -/
def splitextRootL (s : List Char) : List Char :=
  match afterFirstDot s.reverse with
  | none => s
  | some revRoot =>
      if revRoot.all (fun c => c == '.') then s else revRoot.reverse

/-- os.path.splitext(name)[0] for a bare filename. -/
def splitextRoot (s : String) : String := ⟨splitextRootL s.data⟩

/-- A direct child of the template store: on-disk name and whether it is
a directory. -/
abbrev Entry := String × Bool

/-- The template store directory: its list of direct children, in
os.listdir order. -/
abbrev Store := List Entry

/-- A Python dict with string keys and values, as an association list in
insertion order. -/
abbrev Dict := List (String × String)

/-- Python dict assignment d[k] = v: replace the value in place if the
key exists, else append the new binding. -/
def dictInsert (k v : String) : Dict → Dict
  | [] => [(k, v)]
  | (k₁, v₁) :: rest =>
      if k₁ = k then (k, v) :: rest else (k₁, v₁) :: dictInsert k v rest

/-- Python dict lookup d[k], None when absent. -/
def dictGet (k : String) : Dict → Option String
  | [] => none
  | (k₁, v₁) :: rest => if k₁ = k then some v₁ else dictGet k rest

/-- Python `k in d`. -/
def dictContains (d : Dict) (k : String) : Bool := (dictGet k d).isSome

/-- Python d.keys() in insertion order. -/
def dictKeys (d : Dict) : List String := d.map Prod.fst

/-- Loop body of list_targets for one child: the key is
os.path.splitext(basename)[0] and the value is the basename, with "/"
appended when the child is a directory.  (os.path.basename is the
identity on os.listdir children.) -/
def entryKV (e : Entry) : String × String :=
  (splitextRoot e.1, if e.2 then e.1 ++ "/" else e.1)

/-- list_targets(): build the dict of target names from the store
children (the store directory is created first when missing, so an
absent store behaves as an empty one). -/
def list_targets (store : Store) : Dict :=
  store.foldl (fun d e => dictInsert (entryKV e).1 (entryKV e).2 d) []

/-- Lexicographic comparison of character lists by code point, the
order Python uses on strings (a proper prefix sorts first). -/
def lexLe : List Char → List Char → Bool
  | [], _ => true
  | _ :: _, [] => false
  | a :: as, b :: bs => if a < b then true else if b < a then false else lexLe as bs

/-- The sort key of show_targets: compare target names by their
lowercased form (sorted with key=lambda v: v.lower()). -/
def keyLe (a b : String) : Bool := lexLe (pyLower a).data (pyLower b).data

/-- Stable insertion of one name into an already sorted list of names
(a new name goes before the first strictly greater entry). -/
def insortKey (x : String) : List String → List String
  | [] => [x]
  | y :: ys => if keyLe x y then x :: y :: ys else y :: insortKey x ys

/-- Python sorted(keys, key=lambda v: v.lower()) as a stable insertion
sort. -/
def sortTargets (l : List String) : List String := l.foldr insortKey []

/-- Left column padding of print_line: Python " " * (max_length -
len(left)), where a non-positive count gives the empty string, exactly
like truncated Nat subtraction. -/
def padTo (n : Nat) (s : String) : String :=
  s ++ ⟨List.replicate (n - s.length) ' '⟩

/-- print_line inside show_targets: left column, padding, the arrow (or
two blanks for the header rows), the four-blank offset, then the right
column.  dir_color only wraps the right column in terminal color codes
when colorama is installed and is modelled as the identity (the plain
output path). -/
def print_line (maxLength : Nat) (left right : String) (arrow : Bool) : String :=
  padTo maxLength left ++ (if arrow then "->" else "  ") ++ "    " ++ right

/-- max((len(k) for k in templates.keys())) if templates else 0. -/
def maxKeyLen (d : Dict) : Nat :=
  (dictKeys d).foldl (fun m k => Nat.max m k.length) 0

/-- show_targets(): the two header rows, one row per template in
case-insensitively sorted order, and a blank trailing line.  The
max_length column width is the longest key plus the offset 4. -/
def show_targets (d : Dict) : List String :=
  print_line (maxKeyLen d + 4) "Name" "File / Dir" false ::
  print_line (maxKeyLen d + 4) "----" "----------" false ::
  ((sortTargets (dictKeys d)).map fun t =>
      print_line (maxKeyLen d + 4) t ((dictGet t d).getD "") true) ++ [""]

/-- The prompt printed by input(prompt): the question followed by the
hint of the default, with the default answer as the capital letter. -/
def promptOf (question : String) (default : Bool) : String :=
  question ++ " " ++ (if default then "[Y/n]" else "[y/N]") ++ " "

/-- ask_question_yn(question, default) over a finite list of pending
interactive answers.  Returns the boolean answer, the unread rest of
the input, and the lines written while prompting; none when the input
runs out before a valid answer (the real program would block or die on
end-of-file there). -/
def ask_question_yn (question : String) (default : Bool) :
    List String → Option (Bool × List String × List String)
  | [] => none
  | a :: rest =>
      let ans := pyStrip a
      if ans = "" then some (default, rest, [promptOf question default])
      else if pyLower ans = "y" then some (true, rest, [promptOf question default])
      else if pyLower ans = "n" then some (false, rest, [promptOf question default])
      else
        match ask_question_yn question default rest with
        | none => none
        | some (b, rem, out) =>
            some (b, rem, promptOf question default :: "Invalid answer, please try again." :: out)

/-- An answer the while loop of ask_question_yn accepts on first sight:
empty after stripping, or y/n in any case. -/
def validAnswer (s : String) : Bool :=
  (pyStrip s == "") || (pyLower (pyStrip s) == "y") || (pyLower (pyStrip s) == "n")

/-- A copy destination: the current working directory itself (the dest
passed when no output names are given) or a direct child of it. -/
inductive Dest where
  | cwd
  | sub (name : String)
deriving DecidableEq, Repr

/-- The observable state of the current working directory: the names of
its top-level regular files and of its top-level subdirectories. -/
structure FS where
  files : List String
  dirs : List String
deriving DecidableEq, Repr

/-- os.path.isfile on a destination path: the cwd itself is a
directory, a child is a file when listed as one. -/
def isfileFS (fs : FS) : Dest → Bool
  | Dest.cwd => false
  | Dest.sub n => fs.files.contains n

/-- os.path.exists on a destination path: the cwd always exists. -/
def existsFS (fs : FS) : Dest → Bool
  | Dest.cwd => true
  | Dest.sub n => fs.files.contains n || fs.dirs.contains n

/-- Record a top-level regular file in the cwd. -/
def addFile (n : String) (fs : FS) : FS :=
  if fs.files.contains n then fs else ⟨n :: fs.files, fs.dirs⟩

/-- Record a top-level subdirectory of the cwd. -/
def addDir (n : String) (fs : FS) : FS :=
  if fs.dirs.contains n then fs else ⟨fs.files, n :: fs.dirs⟩

/-- Effect of shutil.copytree(targetpath, dest, dirs_exist_ok=True) on
the tracked cwd state.  Merging into the cwd itself only adds the
template directory's own children, which no later operation of this
program ever observes, so the tracked top-level state is returned
unchanged; merging into a child makes that child a directory. -/
def applyTree (fs : FS) (dest : Dest) : FS :=
  match dest with
  | Dest.cwd => fs
  | Dest.sub n => addDir n fs

/-- Outcome of one copy attempt. -/
inductive CopyResult where
  | copied
  | skipped
  | blocked
  | error
deriving DecidableEq, Repr

/-- shutil.copy(targetpath, dest) on the tracked cwd state.  When dest
is an existing directory, shutil.copy resolves the real destination to
dest/basename(targetpath) before calling copyfile.  So for the cwd
itself the file lands under the template's own basename — unless that
top-level name is an existing directory, where copyfile raises
IsADirectoryError (error).  For a child path that is an existing
directory the file lands inside that subdirectory, below the tracked
top-level names (a collision deeper inside it is outside the tracked
observables); otherwise the child becomes (or stays) a regular file.
File contents are not tracked. -/
def shutilCopy (fs : FS) (dest : Dest) (srcBase : String) : CopyResult × FS :=
  match dest with
  | Dest.cwd =>
      if fs.dirs.contains srcBase then (CopyResult.error, fs)
      else (CopyResult.copied, addFile srcBase fs)
  | Dest.sub n =>
      if fs.dirs.contains n then (CopyResult.copied, fs)
      else (CopyResult.copied, addFile n fs)

/-- safe_copy(targetpath, dest): prompt only when dest is an existing
regular file; a decline returns without copying; every other path
falls through to shutil.copy, whose outcome (including its
IsADirectoryError) is the result.  blocked marks input exhausted
during the prompt. -/
def safe_copy (fs : FS) (dest : Dest) (srcBase : String) (input : List String) :
    CopyResult × FS × List String :=
  if isfileFS fs dest && existsFS fs dest then
    match ask_question_yn "File exists, do you want to overwrite it?" true input with
    | none => (CopyResult.blocked, fs, [])
    | some (false, rest, _) => (CopyResult.skipped, fs, rest)
    | some (true, rest, _) =>
        ((shutilCopy fs dest srcBase).1, (shutilCopy fs dest srcBase).2, rest)
  else ((shutilCopy fs dest srcBase).1, (shutilCopy fs dest srcBase).2, input)

/-- safe_copytree(targetpath, dest): prompt when dest exists; a decline
returns without copying; otherwise shutil.copytree runs, which raises
(error) when dest is an existing regular file, because makedirs cannot
treat a file as a directory. -/
def safe_copytree (fs : FS) (dest : Dest) (input : List String) :
    CopyResult × FS × List String :=
  if existsFS fs dest then
    match ask_question_yn "Directory exists, do you want to overwrite (merge) it?" true input with
    | none => (CopyResult.blocked, fs, [])
    | some (false, rest, _) => (CopyResult.skipped, fs, rest)
    | some (true, rest, _) =>
        if isfileFS fs dest then (CopyResult.error, fs, rest)
        else (CopyResult.copied, applyTree fs dest, rest)
  else (CopyResult.copied, applyTree fs dest, input)

/-- os.path.isdir(os.path.join(TEMPLATE_DIR, v)): the store has a
directory child whose name is v with any trailing slash removed. -/
def isdirPath (store : Store) (v : String) : Bool :=
  store.any fun e => e.2 && (e.1 == v || e.1 ++ "/" == v)

/-- One copy of create_template: the branch on os.path.isdir chooses
between safe_copytree and safe_copy. -/
def copyStep (srcIsDir : Bool) (srcBase : String) (fs : FS) (dest : Dest)
    (input : List String) : CopyResult × FS × List String :=
  if srcIsDir then safe_copytree fs dest input else safe_copy fs dest srcBase input

/-- The for-loop of create_template over the requested output names:
each name is one copy attempt at cwd/name; an exhausted prompt or a
raised copy error aborts the remaining iterations (an unhandled
exception propagates), while copied and skipped continue. -/
def createLoop (srcIsDir : Bool) (srcBase : String) (fs : FS) :
    List String → List String → List (Dest × CopyResult) × FS × List String
  | [], input => ([], fs, input)
  | n :: rest, input =>
      match copyStep srcIsDir srcBase fs (Dest.sub n) input with
      | (CopyResult.blocked, fs₁, inp₁) => ([(Dest.sub n, CopyResult.blocked)], fs₁, inp₁)
      | (CopyResult.error, fs₁, inp₁) => ([(Dest.sub n, CopyResult.error)], fs₁, inp₁)
      | (r, fs₁, inp₁) =>
          let rec₁ := createLoop srcIsDir srcBase fs₁ rest inp₁
          ((Dest.sub n, r) :: rec₁.1, rec₁.2.1, rec₁.2.2)

/-- create_template(target, names): look the target up in a fresh
listing (a missing key would raise KeyError: none); with names = None
copy once with the cwd itself as dest, else run the loop over the
names.  Returns the trace of copy attempts, the final cwd state and
the unread input. -/
def create_template (store : Store) (target : String) (names : Option (List String))
    (fs : FS) (input : List String) :
    Option (List (Dest × CopyResult) × FS × List String) :=
  match dictGet target (list_targets store) with
  | none => none
  | some v =>
      let srcIsDir := isdirPath store v
      match names with
      | none =>
          let r := copyStep srcIsDir v fs Dest.cwd input
          some ([(Dest.cwd, r.1)], r.2.1, r.2.2)
      | some ns => some (createLoop srcIsDir v fs ns input)

/-- fail(target): the usage or unknown-target diagnostic, the
"Available targets:" line and the full listing, then raise SystemExit.
A bare SystemExit carries code None, which makes the interpreter
terminate with process exit status 0. -/
def fail (store : Store) (target : Option String) : List String × Nat :=
  ((match target with
    | none => "Usage: ./new.py target [output_name]"
    | some t => "Chosen target '" ++ t ++ "' doesn't exist.") ::
   "Available targets:" :: show_targets (list_targets store), 0)

/-- Result of parse_args: the validated pair, or the printed output and
exit status of the fail path. -/
inductive ParseResult where
  | ok (target : String) (names : Option (List String))
  | failed (output : List String) (exitCode : Nat)
deriving DecidableEq

/-- parse_args() over argv with the program name removed: no argument
fails with the usage message, one argument is a bare target, two or
more give the target and the list of output names, each stripped; an
unknown stripped target fails with the unknown-target message. -/
def parse_args (store : Store) (args : List String) : ParseResult :=
  match args with
  | [] => ParseResult.failed (fail store none).1 (fail store none).2
  | [t] =>
      let target := pyStrip t
      if dictContains (list_targets store) target then ParseResult.ok target none
      else ParseResult.failed (fail store (some target)).1 (fail store (some target)).2
  | t :: rest =>
      let target := pyStrip t
      let filenames := rest.map pyStrip
      if dictContains (list_targets store) target then
        ParseResult.ok target (some filenames)
      else ParseResult.failed (fail store (some target)).1 (fail store (some target)).2

/-- What one program run produces: the diagnostic lines printed on the
fail path (prompt text of the copy phase is not tracked), the process
exit status, and the trace of copy attempts. -/
structure RunResult where
  output : List String
  exitCode : Nat
  trace : List (Dest × CopyResult)
deriving DecidableEq

/-- The __main__ block: parse_args, then create_template.  A
validation failure prints and exits without any copy attempt; an
unhandled exception during copying (exhausted input or a raised
copytree error) exits with the interpreter's failure status 1, normal
completion with 0. -/
def progMain (store : Store) (args : List String) (fs : FS) (input : List String) :
    RunResult :=
  match parse_args store args with
  | ParseResult.failed out code => ⟨out, code, []⟩
  | ParseResult.ok t names =>
      match create_template store t names fs input with
      | none => ⟨[], 1, []⟩
      | some (tr, _, _) =>
          ⟨[], if tr.any (fun e => e.2 == CopyResult.blocked || e.2 == CopyResult.error)
               then 1 else 0, tr⟩

theorem dictInsert_ne_nil (k v : String) (d : Dict) : dictInsert k v d ≠ [] := by
  cases d with
  | nil => simp [dictInsert]
  | cons h t =>
      simp only [dictInsert]
      split <;> simp

theorem foldl_dictInsert_eq_nil (store : Store) :
    ∀ d : Dict, store.foldl (fun d e => dictInsert (entryKV e).1 (entryKV e).2 d) d = [] ↔
      (store = [] ∧ d = []) := by
  induction store with
  | nil => intro d; simp
  | cons e rest ih =>
      intro d
      rw [List.foldl_cons, ih]
      constructor
      · rintro ⟨-, h2⟩
        exact absurd h2 (dictInsert_ne_nil _ _ _)
      · rintro ⟨h1, -⟩
        exact absurd h1 (List.cons_ne_nil _ _)

theorem afterFirstDot_of_not_mem {l : List Char} (h : '.' ∉ l) :
    afterFirstDot l = none := by
  induction l with
  | nil => rfl
  | cons c cs ih =>
      simp only [List.mem_cons, not_or] at h
      have hc : ¬(c = '.') := fun hc => h.1 hc.symm
      simp only [afterFirstDot, if_neg hc]
      exact ih h.2

theorem afterFirstDot_append {a : List Char} (b : List Char) (h : '.' ∉ a) :
    afterFirstDot (a ++ '.' :: b) = some b := by
  induction a with
  | nil => simp [afterFirstDot]
  | cons c cs ih =>
      simp only [List.mem_cons, not_or] at h
      have hc : ¬(c = '.') := fun hc => h.1 hc.symm
      simp only [List.cons_append, afterFirstDot, if_neg hc]
      exact ih h.2

theorem splitextRootL_of_not_mem {s : List Char} (h : '.' ∉ s) :
    splitextRootL s = s := by
  unfold splitextRootL
  rw [afterFirstDot_of_not_mem (by simpa using h)]

theorem splitextRootL_append {foo ext : List Char} (hext : '.' ∉ ext)
    (hfoo : ∃ c ∈ foo, c ≠ '.') : splitextRootL (foo ++ '.' :: ext) = foo := by
  unfold splitextRootL
  have hrev : (foo ++ '.' :: ext).reverse = ext.reverse ++ '.' :: foo.reverse := by
    simp
  rw [hrev, afterFirstDot_append _ (by simpa using hext)]
  obtain ⟨c, hc, hcne⟩ := hfoo
  have hall : foo.reverse.all (fun c => c == '.') = false := by
    rw [List.all_eq_false]
    exact ⟨c, by simpa using hc, by simpa using hcne⟩
  show (if foo.reverse.all (fun c => c == '.') = true then foo ++ '.' :: ext
        else foo.reverse.reverse) = foo
  rw [hall]
  simp

theorem lexLe_total (a b : List Char) : lexLe a b = true ∨ lexLe b a = true := by
  induction a generalizing b with
  | nil => left; rfl
  | cons x xs ih =>
      cases b with
      | nil => right; rfl
      | cons y ys =>
          by_cases hxy : x < y
          · left
            simp [lexLe, hxy]
          · by_cases hyx : y < x
            · right
              simp [lexLe, hyx]
            · rcases ih ys with h | h
              · left
                simp [lexLe, hxy, hyx, h]
              · right
                simp [lexLe, hxy, hyx, h]

theorem keyLe_total (a b : String) : keyLe a b = true ∨ keyLe b a = true :=
  lexLe_total _ _

theorem chain'_insortKey (x : String) {l : List String}
    (h : List.Chain' (fun a b => keyLe a b = true) l) :
    List.Chain' (fun a b => keyLe a b = true) (insortKey x l) := by
  induction l with
  | nil => simp [insortKey]
  | cons y ys ih =>
      by_cases hxy : keyLe x y = true
      · simp only [insortKey, if_pos hxy]
        exact List.chain'_cons.mpr ⟨hxy, h⟩
      · have hyx : keyLe y x = true := (keyLe_total x y).resolve_left hxy
        have hrec := ih h.tail
        simp only [insortKey, if_neg hxy]
        rw [List.chain'_cons']
        refine ⟨?_, hrec⟩
        intro z hz
        cases ys with
        | nil =>
            simp [insortKey] at hz
            subst hz
            exact hyx
        | cons w ws =>
            by_cases hxw : keyLe x w = true
            · simp [insortKey, hxw] at hz
              subst hz
              exact hyx
            · simp [insortKey, hxw] at hz
              subst hz
              exact (List.chain'_cons.mp h).1

theorem chain'_sortTargets (l : List String) :
    List.Chain' (fun a b => keyLe a b = true) (sortTargets l) := by
  induction l with
  | nil => simp [sortTargets]
  | cons x xs ih => exact chain'_insortKey x ih

theorem perm_insortKey (x : String) (l : List String) :
    (insortKey x l).Perm (x :: l) := by
  induction l with
  | nil => simp [insortKey]
  | cons y ys ih =>
      by_cases hxy : keyLe x y = true
      · simp [insortKey, hxy]
      · simp only [insortKey, if_neg hxy]
        exact (ih.cons y).trans (List.Perm.swap x y ys)

theorem perm_sortTargets (l : List String) : (sortTargets l).Perm l := by
  induction l with
  | nil => simp [sortTargets]
  | cons x xs ih =>
      exact (perm_insortKey x (sortTargets xs)).trans (ih.cons x)

theorem init_le_foldl_max (l : List String) :
    ∀ init : Nat, init ≤ l.foldl (fun m k => Nat.max m k.length) init := by
  induction l with
  | nil => intro init; simp
  | cons x xs ih =>
      intro init
      calc init ≤ Nat.max init x.length := Nat.le_max_left _ _
        _ ≤ _ := ih _

theorem mem_le_foldl_max {k : String} {l : List String} (hk : k ∈ l) :
    ∀ init : Nat, k.length ≤ l.foldl (fun m k => Nat.max m k.length) init := by
  induction l with
  | nil => cases hk
  | cons x xs ih =>
      intro init
      rcases List.mem_cons.mp hk with h | h
      · subst h
        calc k.length ≤ Nat.max init k.length := Nat.le_max_right _ _
          _ ≤ _ := init_le_foldl_max _ _
      · exact ih h _

theorem length_padTo {n : Nat} {s : String} (h : s.length ≤ n) :
    (padTo n s).length = n := by
  have h1 : (String.mk (List.replicate (n - s.length) ' ')).length = n - s.length := by
    show (List.replicate (n - s.length) ' ').length = n - s.length
    exact List.length_replicate _ _
  rw [padTo, String.length_append, h1, Nat.add_sub_cancel' h]

theorem length_print_line {d : Dict} {k : String} (hk : k ∈ dictKeys d) (r : String) :
    (print_line (maxKeyLen d + 4) k r true).length = (maxKeyLen d + 4) + 2 + 4 + r.length := by
  have hlen : k.length ≤ maxKeyLen d + 4 :=
    le_trans (mem_le_foldl_max hk 0) (Nat.le_add_right _ 4)
  have h2 : ("->" : String).length = 2 := rfl
  have h4 : ("    " : String).length = 4 := rfl
  show (padTo (maxKeyLen d + 4) k ++ "->" ++ "    " ++ r).length =
    (maxKeyLen d + 4) + 2 + 4 + r.length
  rw [String.length_append, String.length_append, String.length_append,
    length_padTo hlen, h2, h4]

theorem ask_valid_step (q : String) (d : Bool) (a : String) (rest : List String)
    (hv : validAnswer a = true) :
    ∃ b : Bool, ask_question_yn q d (a :: rest) = some (b, rest, [promptOf q d]) := by
  by_cases h1 : pyStrip a = ""
  · exact ⟨d, by simp [ask_question_yn, h1]⟩
  · by_cases h2 : pyLower (pyStrip a) = "y"
    · exact ⟨true, by simp [ask_question_yn, h1, h2]⟩
    · by_cases h3 : pyLower (pyStrip a) = "n"
      · exact ⟨false, by simp [ask_question_yn, h1, h2, h3]⟩
      · exfalso
        simp [validAnswer, h1, h2, h3] at hv

/-- C5: list_targets returns the empty mapping exactly when the store
directory has no children, and being a total function it raises
nothing on an empty store. -/
theorem C5_list_targets_empty_iff (store : Store) :
    list_targets store = [] ↔ store = [] := by
  rw [list_targets, foldl_dictInsert_eq_nil]
  simp

theorem C5_witness : list_targets ([] : Store) = [] :=
  (C5_list_targets_empty_iff []).mpr rfl

/-- C3 counterexample: a directory whose name contains a dot is NOT
keyed by its on-disk name: the store child directory "bar.d" is listed
under the key "bar", and looking it up under its own name "bar.d"
finds nothing.  This refutes the claim that list_targets uses a
directory's on-disk name verbatim as the mapping key. -/
theorem C3_counterexample :
    dictGet "bar.d" (list_targets [("bar.d", true)]) = none ∧
    list_targets [("bar.d", true)] = [("bar", "bar.d/")] := by
  decide

/-- C3 (amended): for a directory child the key is the splitext stem of
its name, the same extension stripping applied to files, and the
trailing "/" marker is appended only to the stored value; hence a
directory whose name contains no dot (such as "bar") is retrievable
under exactly its own name. -/
theorem C3_dir_key_is_stem (d : String) :
    list_targets [(d, true)] = [(splitextRoot d, d ++ "/")] ∧
    dictGet (splitextRoot d) (list_targets [(d, true)]) = some (d ++ "/") ∧
    ('.' ∉ d.data → splitextRoot d = d) := by
  refine ⟨rfl, ?_, ?_⟩
  · show dictGet (splitextRoot d) [(splitextRoot d, d ++ "/")] = some (d ++ "/")
    simp [dictGet]
  · intro h
    show (⟨splitextRootL d.data⟩ : String) = d
    rw [splitextRootL_of_not_mem h]

theorem C3_witness :
    list_targets [("bar", true)] = [(splitextRoot "bar", "bar" ++ "/")] ∧
    splitextRoot "bar" = "bar" :=
  ⟨(C3_dir_key_is_stem "bar").1, (C3_dir_key_is_stem "bar").2.2 (by decide)⟩

/-- C4: a file child named foo.ext (ext dotless, foo not all dots) is
keyed exactly by foo: only the final extension is stripped, so
"a.tar.gz" yields the target name "a.tar". -/
theorem C4_file_extension_stripped_once (foo ext : String)
    (hext : '.' ∉ ext.data) (hfoo : ∃ c ∈ foo.data, c ≠ '.') :
    list_targets [(foo ++ "." ++ ext, false)] = [(foo, foo ++ "." ++ ext)] ∧
    splitextRoot "a.tar.gz" = "a.tar" := by
  constructor
  · have hdata : (foo ++ "." ++ ext).data = foo.data ++ '.' :: ext.data := by
      simp [String.data_append]
    have hroot : splitextRoot (foo ++ "." ++ ext) = foo := by
      show (⟨splitextRootL (foo ++ "." ++ ext).data⟩ : String) = foo
      rw [hdata, splitextRootL_append hext hfoo]
    show [(splitextRoot (foo ++ "." ++ ext), foo ++ "." ++ ext)] =
      [(foo, foo ++ "." ++ ext)]
    rw [hroot]
  · decide

theorem C4_witness :
    list_targets [("foo" ++ "." ++ "ext", false)] = [("foo", "foo" ++ "." ++ "ext")] ∧
    splitextRoot "a.tar.gz" = "a.tar" :=
  C4_file_extension_stripped_once "foo" "ext" (by decide) (by decide)

/-- C2 (code bug): with names = None and a file template python.py,
create_template hands the cwd itself to safe_copy as dest, so the
overwrite check isfile(dest) inspects the cwd directory and is false
even though ./python.py already exists; the copy then runs without any
prompt (the pending decline "n" is never read) and silently overwrites
./python.py. -/
theorem C2_silent_overwrite :
    create_template [("python.py", false)] "python" none ⟨["python.py"], []⟩ ["n"] =
      some ([(Dest.cwd, CopyResult.copied)], ⟨["python.py"], []⟩, ["n"]) := by
  decide

/-- C7: ask_question_yn returns the default for an empty answer, true
for y or Y, false for n or N; any other answer prints the invalid
notice after the prompt and the loop asks again, so a value is
returned only once a valid answer arrives; the prompt hint spells the
default as the capital letter. -/
theorem C7_ask_question_yn (q : String) (d : Bool) (rest : List String) (a : String) :
    ask_question_yn q d ("" :: rest) = some (d, rest, [promptOf q d]) ∧
    ask_question_yn q d ("y" :: rest) = some (true, rest, [promptOf q d]) ∧
    ask_question_yn q d ("Y" :: rest) = some (true, rest, [promptOf q d]) ∧
    ask_question_yn q d ("n" :: rest) = some (false, rest, [promptOf q d]) ∧
    ask_question_yn q d ("N" :: rest) = some (false, rest, [promptOf q d]) ∧
    (validAnswer a = false →
      ask_question_yn q d (a :: rest) =
        match ask_question_yn q d rest with
        | none => none
        | some (b, rem, out) =>
            some (b, rem, promptOf q d :: "Invalid answer, please try again." :: out)) ∧
    promptOf q true = q ++ " [Y/n] " ∧ promptOf q false = q ++ " [y/N] " := by
  refine ⟨rfl, rfl, rfl, rfl, rfl, ?_, ?_, ?_⟩
  · intro hv
    simp only [validAnswer, Bool.or_eq_false_iff, beq_eq_false_iff_ne, ne_eq] at hv
    simp only [ask_question_yn, if_neg hv.1.1, if_neg hv.1.2, if_neg hv.2]
  · show q ++ " " ++ "[Y/n]" ++ " " = q ++ " [Y/n] "
    rw [String.append_assoc, String.append_assoc]
    congr 1
  · show q ++ " " ++ "[y/N]" ++ " " = q ++ " [y/N] "
    rw [String.append_assoc, String.append_assoc]
    congr 1

theorem C7_witness :
    ask_question_yn "Overwrite?" true ["x", ""] =
      some (true, [], [promptOf "Overwrite?" true, "Invalid answer, please try again.",
        promptOf "Overwrite?" true]) := by
  have hinv := (C7_ask_question_yn "Overwrite?" true [""] "x").2.2.2.2.2.1 (by decide)
  have hemp := (C7_ask_question_yn "Overwrite?" true [] "x").1
  rw [hinv, hemp]

theorem shutilCopy_fst_not_skipped (fs : FS) (dest : Dest) (srcBase : String) :
    (shutilCopy fs dest srcBase).1 ≠ CopyResult.skipped := by
  unfold shutilCopy
  cases dest <;> dsimp only <;> split <;> simp

/-- C10 (implicit): both overwrite prompts pass default = True, so for
every invocation an empty answer (just Enter) makes the
overwrite/merge proceed rather than skip: safe_copy falls straight
through to shutil.copy (which copies, or raises IsADirectoryError when
the resolved destination is an existing top-level directory), and
safe_copytree merges, or raises when the destination is an existing
regular file — proceeding, never skipping, in every case. -/
theorem C10_empty_answer_proceeds (fs : FS) (dest : Dest) (srcBase : String)
    (rest : List String) :
    (safe_copy fs dest srcBase ("" :: rest)).1 = (shutilCopy fs dest srcBase).1 ∧
    (safe_copy fs dest srcBase ("" :: rest)).1 ≠ CopyResult.skipped ∧
    (safe_copytree fs dest ("" :: rest)).1 ≠ CopyResult.skipped ∧
    (safe_copytree fs dest ("" :: rest)).1 =
      (if existsFS fs dest && isfileFS fs dest then CopyResult.error
       else CopyResult.copied) := by
  have hask : ∀ m : String, ask_question_yn m true ("" :: rest) =
      some (true, rest, [promptOf m true]) := fun m => rfl
  have h1 : (safe_copy fs dest srcBase ("" :: rest)).1 = (shutilCopy fs dest srcBase).1 := by
    by_cases hc : (isfileFS fs dest && existsFS fs dest) = true
    · simp [safe_copy, hc, hask]
    · simp [safe_copy, hc]
  refine ⟨h1, ?_, ?_, ?_⟩
  · rw [h1]
    exact shutilCopy_fst_not_skipped fs dest srcBase
  · by_cases he : existsFS fs dest = true
    · by_cases hf : isfileFS fs dest = true
      · simp [safe_copytree, he, hf, hask]
      · simp [safe_copytree, he, hf, hask]
    · simp [safe_copytree, he, Bool.not_eq_true _ ▸ he]
  · by_cases he : existsFS fs dest = true
    · by_cases hf : isfileFS fs dest = true
      · simp [safe_copytree, he, hf, hask]
      · simp [safe_copytree, he, hf, hask]
    · simp [safe_copytree, he, Bool.not_eq_true _ ▸ he]

/-- C8: parse_args returns the stripped target with None for exactly
one extra argument and with the list of the remaining stripped
arguments for two or more; the lookup deciding success uses the
stripped target verbatim (no case folding), failing on anything not
literally present. -/
theorem C8_parse_args (store : Store) (t n : String) (ns : List String) :
    (dictContains (list_targets store) (pyStrip t) = true →
      parse_args store [t] = ParseResult.ok (pyStrip t) none) ∧
    (dictContains (list_targets store) (pyStrip t) = true →
      parse_args store (t :: n :: ns) =
        ParseResult.ok (pyStrip t) (some ((n :: ns).map pyStrip))) ∧
    (dictContains (list_targets store) (pyStrip t) = false →
      parse_args store [t] =
        ParseResult.failed (("Chosen target '" ++ pyStrip t ++ "' doesn't exist.") ::
          "Available targets:" :: show_targets (list_targets store)) 0) ∧
    (dictContains (list_targets store) (pyStrip t) = false →
      parse_args store (t :: n :: ns) =
        ParseResult.failed (("Chosen target '" ++ pyStrip t ++ "' doesn't exist.") ::
          "Available targets:" :: show_targets (list_targets store)) 0) := by
  refine ⟨?_, ?_, ?_, ?_⟩ <;> intro h <;> simp [parse_args, fail, h]

theorem C8_witness :
    parse_args [("python.py", false)] [" python "] = ParseResult.ok "python" none ∧
    parse_args [("python.py", false)] ["python", " a ", "b"] =
      ParseResult.ok "python" (some ["a", "b"]) ∧
    parse_args [("python.py", false)] ["PYTHON"] =
      ParseResult.failed (("Chosen target '" ++ pyStrip "PYTHON" ++ "' doesn't exist.") ::
        "Available targets:" ::
        show_targets (list_targets [("python.py", false)])) 0 := by
  refine ⟨?_, ?_, ?_⟩
  · have h := (C8_parse_args [("python.py", false)] " python " "" []).1 (by decide)
    simpa using h
  · have h := (C8_parse_args [("python.py", false)] "python" " a " ["b"]).2.1 (by decide)
    simpa using h
  · exact (C8_parse_args [("python.py", false)] "PYTHON" "" []).2.2.1 (by decide)

/-- C1 counterexample: the fail path does NOT terminate with a
non-zero exit status: running with no argument ends the process with
exit status 0, because fail raises SystemExit without a code. -/
theorem C1_counterexample :
    (progMain [] [] ⟨[], []⟩ []).exitCode = 0 := by decide

/-- C1 (amended): for every argument-validation failure (no target, or
unknown target with one or with several extra arguments) the program
prints the diagnostic followed by the listing and terminates by
raising SystemExit — but with exit status 0, the success status, since
the SystemExit carries no code — and performs no copy attempt
afterwards (the trace is empty). -/
theorem C1_fail_prints_and_exits (store : Store) (fs : FS) (input : List String)
    (t n : String) (ns : List String) :
    progMain store [] fs input =
      ⟨"Usage: ./new.py target [output_name]" :: "Available targets:" ::
        show_targets (list_targets store), 0, []⟩ ∧
    (dictContains (list_targets store) (pyStrip t) = false →
      progMain store [t] fs input =
        ⟨("Chosen target '" ++ pyStrip t ++ "' doesn't exist.") :: "Available targets:" ::
          show_targets (list_targets store), 0, []⟩) ∧
    (dictContains (list_targets store) (pyStrip t) = false →
      progMain store (t :: n :: ns) fs input =
        ⟨("Chosen target '" ++ pyStrip t ++ "' doesn't exist.") :: "Available targets:" ::
          show_targets (list_targets store), 0, []⟩) := by
  refine ⟨?_, ?_, ?_⟩
  · rfl
  · intro h
    simp [progMain, parse_args, fail, h]
  · intro h
    simp [progMain, parse_args, fail, h]

theorem C1_witness :
    progMain [("python.py", false)] ["nosuch"] ⟨[], []⟩ [] =
      ⟨("Chosen target '" ++ pyStrip "nosuch" ++ "' doesn't exist.") :: "Available targets:" ::
        show_targets (list_targets [("python.py", false)]), 0, []⟩ :=
  (C1_fail_prints_and_exits [("python.py", false)] ⟨[], []⟩ [] "nosuch" "" []).2.1 (by decide)

/-- C9: show_targets is total and prints the two header rows, one
aligned row per template sorted case-insensitively, and a blank
trailing line; every data row places the arrow in the same column
because the left column is padded to the longest name plus the offset;
for the empty store only the headers and the blank line appear. -/
theorem C9_show_targets (d : Dict) :
    (show_targets d).length = (dictKeys d).length + 3 ∧
    List.Chain' (fun a b => keyLe a b = true) (sortTargets (dictKeys d)) ∧
    (sortTargets (dictKeys d)).Perm (dictKeys d) ∧
    (∀ k ∈ dictKeys d, ∀ r : String,
      (print_line (maxKeyLen d + 4) k r true).length = (maxKeyLen d + 4) + 2 + 4 + r.length) ∧
    (show_targets d).getLast? = some "" ∧
    show_targets [] = ["Name      File / Dir", "----      ----------", ""] := by
  refine ⟨?_, chain'_sortTargets _, perm_sortTargets _, ?_, ?_, ?_⟩
  · simp [show_targets, (perm_sortTargets (dictKeys d)).length_eq]
  · intro k hk r
    exact length_print_line hk r
  · show ((print_line (maxKeyLen d + 4) "Name" "File / Dir" false ::
      print_line (maxKeyLen d + 4) "----" "----------" false ::
      ((sortTargets (dictKeys d)).map fun t =>
        print_line (maxKeyLen d + 4) t ((dictGet t d).getD "") true)) ++ [""]).getLast? = some ""
    exact List.getLast?_concat _
  · decide

theorem C9_witness :
    (print_line (maxKeyLen [("python", "python.py")] + 4) "python" "python.py" true).length =
      (maxKeyLen [("python", "python.py")] + 4) + 2 + 4 + ("python.py" : String).length :=
  (C9_show_targets [("python", "python.py")]).2.2.2.1 "python" (by decide) "python.py"

theorem addDir_files (n : String) (fs : FS) : (addDir n fs).files = fs.files := by
  unfold addDir
  split <;> rfl

theorem shutilCopy_sub_fst (fs : FS) (n srcBase : String) :
    (shutilCopy fs (Dest.sub n) srcBase).1 = CopyResult.copied := by
  show (if fs.dirs.contains n then (CopyResult.copied, fs)
        else (CopyResult.copied, addFile n fs)).1 = CopyResult.copied
  split <;> rfl

theorem createLoop_all_names (srcIsDir : Bool) (base : String) :
    ∀ (ns input : List String) (fs : FS),
      (∀ a ∈ input, validAnswer a = true) →
      ns.length ≤ input.length →
      (srcIsDir = true → ∀ m ∈ ns, fs.files.contains m = false) →
      (createLoop srcIsDir base fs ns input).1.map Prod.fst = ns.map Dest.sub := by
  intro ns
  induction ns with
  | nil =>
      intro input fs _ _ _
      rfl
  | cons n rest ih =>
      intro input fs hvalid hlen hfiles
      obtain ⟨a, input', rfl⟩ : ∃ a input', input = a :: input' := by
        cases input with
        | nil => simp at hlen
        | cons a i => exact ⟨a, i, rfl⟩
      have hva : validAnswer a = true := hvalid a (List.mem_cons_self a input')
      have hvalid' : ∀ x ∈ input', validAnswer x = true :=
        fun x hx => hvalid x (List.mem_cons_of_mem a hx)
      have hlenr : rest.length ≤ input'.length := Nat.le_of_succ_le_succ hlen
      have hlenr0 : rest.length ≤ (a :: input').length :=
        Nat.le_trans hlenr (Nat.le_succ _)
      cases srcIsDir with
      | false =>
          have hfiles' : ∀ fs₁ : FS, (false : Bool) = true →
              ∀ m ∈ rest, fs₁.files.contains m = false :=
            fun fs₁ h => Bool.noConfusion h
          by_cases hc : (isfileFS fs (Dest.sub n) && existsFS fs (Dest.sub n)) = true
          · obtain ⟨b, hask⟩ :=
              ask_valid_step "File exists, do you want to overwrite it?" true a input' hva
            cases b with
            | true =>
                have hstep : copyStep false base fs (Dest.sub n) (a :: input') =
                    (CopyResult.copied, (shutilCopy fs (Dest.sub n) base).2, input') := by
                  simp [copyStep, safe_copy, hc, hask, shutilCopy_sub_fst]
                simp only [createLoop, hstep, List.map_cons]
                rw [ih input' _ hvalid' hlenr (hfiles' _)]
            | false =>
                have hstep : copyStep false base fs (Dest.sub n) (a :: input') =
                    (CopyResult.skipped, fs, input') := by
                  simp [copyStep, safe_copy, hc, hask]
                simp only [createLoop, hstep, List.map_cons]
                rw [ih input' _ hvalid' hlenr (hfiles' _)]
          · have hstep : copyStep false base fs (Dest.sub n) (a :: input') =
                (CopyResult.copied, (shutilCopy fs (Dest.sub n) base).2, a :: input') := by
              simp [copyStep, safe_copy, hc, shutilCopy_sub_fst]
            simp only [createLoop, hstep, List.map_cons]
            rw [ih _ _ hvalid hlenr0 (hfiles' _)]
      | true =>
          have hn : fs.files.contains n = false :=
            hfiles rfl n (List.mem_cons_self n rest)
          have hfilesrest : ∀ m ∈ rest, fs.files.contains m = false :=
            fun m hm => hfiles rfl m (List.mem_cons_of_mem n hm)
          have hisfile : isfileFS fs (Dest.sub n) = false := hn
          by_cases hd2 : fs.dirs.contains n = true
          · have hex : existsFS fs (Dest.sub n) = true := by
              show (fs.files.contains n || fs.dirs.contains n) = true
              rw [hn, hd2]
              rfl
            obtain ⟨b, hask⟩ :=
              ask_valid_step "Directory exists, do you want to overwrite (merge) it?"
                true a input' hva
            cases b with
            | true =>
                have hstep : copyStep true base fs (Dest.sub n) (a :: input') =
                    (CopyResult.copied, applyTree fs (Dest.sub n), input') := by
                  simp [copyStep, safe_copytree, hex, hask, hisfile]
                simp only [createLoop, hstep, List.map_cons]
                rw [ih input' _ hvalid' hlenr]
                intro _ m hm
                show (addDir n fs).files.contains m = false
                rw [addDir_files]
                exact hfilesrest m hm
            | false =>
                have hstep : copyStep true base fs (Dest.sub n) (a :: input') =
                    (CopyResult.skipped, fs, input') := by
                  simp [copyStep, safe_copytree, hex, hask]
                simp only [createLoop, hstep, List.map_cons]
                rw [ih input' _ hvalid' hlenr (fun _ => hfilesrest)]
          · have hd2' : fs.dirs.contains n = false := by simpa using hd2
            have hex : existsFS fs (Dest.sub n) = false := by
              show (fs.files.contains n || fs.dirs.contains n) = false
              rw [hn, hd2']
              rfl
            have hstep : copyStep true base fs (Dest.sub n) (a :: input') =
                (CopyResult.copied, applyTree fs (Dest.sub n), a :: input') := by
              simp [copyStep, safe_copytree, hex]
            simp only [createLoop, hstep, List.map_cons]
            rw [ih _ _ hvalid hlenr0]
            intro _ m hm
            show (addDir n fs).files.contains m = false
            rw [addDir_files]
            exact hfilesrest m hm

/-- C6: with a non-empty list of output names, every name gets its own
copy attempt in order: as long as the pending answers are valid and
sufficient (and, for a directory template, no output name collides
with an existing regular file, where the real copytree would raise),
the trace created by create_template covers exactly the given names in
the given order, whatever mixture of confirmations and declines the
user answers; and in general a skipped (declined) copy never stops the
loop: the remaining names are still processed. -/
theorem C6_each_name_attempted (store : Store) (target v : String)
    (ns input : List String) (fs : FS)
    (hv : dictGet target (list_targets store) = some v)
    (hvalid : ∀ a ∈ input, validAnswer a = true)
    (hlen : ns.length ≤ input.length)
    (hfiles : isdirPath store v = true → ∀ m ∈ ns, fs.files.contains m = false) :
    (create_template store target (some ns) fs input).map
        (fun r => r.1.map Prod.fst) = some (ns.map Dest.sub) ∧
    ∀ (m : String) (rest₁ inp₁ : List String) (fs₁ fs₂ : FS) (inp₂ : List String),
      copyStep (isdirPath store v) v fs₁ (Dest.sub m) inp₁ =
        (CopyResult.skipped, fs₂, inp₂) →
      (createLoop (isdirPath store v) v fs₁ (m :: rest₁) inp₁).1 =
        (Dest.sub m, CopyResult.skipped) ::
          (createLoop (isdirPath store v) v fs₂ rest₁ inp₂).1 := by
  constructor
  · simp only [create_template, hv, Option.map_some']
    rw [createLoop_all_names (isdirPath store v) v ns input fs hvalid hlen hfiles]
  · intro m rest₁ inp₁ fs₁ fs₂ inp₂ hstep
    simp only [createLoop, hstep]

theorem C6_witness :
    (create_template [("python.py", false)] "python" (some ["a", "b"])
        ⟨["a"], []⟩ ["n", ""]).map (fun r => r.1.map Prod.fst) =
      some [Dest.sub "a", Dest.sub "b"] := by
  have h := (C6_each_name_attempted [("python.py", false)] "python" "python.py"
    ["a", "b"] ["n", ""] ⟨["a"], []⟩ (by decide) (by decide) (by decide) (by decide)).1
  simpa using h

end NewPy
